import Mathlib

/-!
Verification of the eDNE postal-directory core: the record-parsing
framework (`crates/edne/src/parser`), the typed identifiers and
enumerations (`crates/edne/src/models`), and the postal-code lookup
builder (`crates/cli/src/cep_lookup.rs`).

Rust strings are modelled as `List Char` at the parsing layer (one
entry per Unicode scalar) and as Lean `String` inside assembled
records; `str::len` is modelled as the UTF-8 byte count, `u32` values
as `Nat` bounded by `2 ^ 32`.  `HashMap` collections are modelled as
association lists; the builder keeps its maps in ascending key order,
a canonical choice for the map's unspecified iteration order.
-/

set_option autoImplicit false

namespace Edne

/-! Rust `char`/`str` primitives used by the parsers. -/

/-- Unicode White_Space property, as used by Rust `char::is_whitespace`. -/
def isRustWs (c : Char) : Bool :=
  let n := c.toNat
  (0x09 ≤ n && n ≤ 0x0D) || n = 0x20 || n = 0x85 || n = 0xA0 ||
    n = 0x1680 || (0x2000 ≤ n && n ≤ 0x200A) || n = 0x2028 ||
    n = 0x2029 || n = 0x202F || n = 0x205F || n = 0x3000

/-- Rust `str::trim`: drop whitespace from both ends. -/
def rustTrim (s : List Char) : List Char :=
  ((s.dropWhile isRustWs).reverse.dropWhile isRustWs).reverse

/-- Rust `str::len`: the UTF-8 byte length of the string. -/
def utf8Len (s : List Char) : Nat :=
  (s.map Char.utf8Size).sum

/-- Rust `str::to_ascii_uppercase`, character by character. -/
def upperAscii (s : List Char) : List Char :=
  s.map Char.toUpper

/-- Rust `str::split` on a one-character pattern: empty fields are
preserved and a trailing separator yields a trailing empty field. -/
def splitSep (sep : Char) : List Char → List (List Char)
  | [] => [[]]
  | c :: rest =>
    if c = sep then [] :: splitSep sep rest
    else
      match splitSep sep rest with
      | [] => [[c]]
      | f :: fs => (c :: f) :: fs

/-- Rust `str::split_inclusive` on the newline character. -/
def splitInclNl (cs : List Char) : List (List Char) :=
  cs.foldr
    (fun c acc =>
      if c = '\n' then [c] :: acc
      else
        match acc with
        | [] => [[c]]
        | chunk :: rest => (c :: chunk) :: rest)
    []

/-- The per-line map of Rust `str::lines`: strip one trailing newline,
and a carriage return before it when the newline was present. -/
def stripNlCr (l : List Char) : List Char :=
  match l.reverse with
  | '\n' :: t =>
    match t with
    | '\r' :: t2 => t2.reverse
    | _ => t.reverse
  | _ => l

/-- Rust `str::lines`. -/
def rustLines (cs : List Char) : List (List Char) :=
  (splitInclNl cs).map stripNlCr

end Edne

namespace Edne

/-! The parsing framework of `parser/base.rs`. -/

/-- The reserved field separator of eDNE files (`FIELD_SEPARATOR`). -/
def fieldSeparator : Char := '@'

/-- Errors of `parser/base.rs` (`ParseError`). -/
inductive ParseError where
  | encodingError (msg : String)
  | fieldCount (expected got lineNumber : Nat)
  | emptyField (fieldName : String) (lineNumber : Nat)
  | invalidNumber (fieldName : String) (value : String) (lineNumber : Nat)
  | invalidValue (fieldName : String) (value : String) (reason : String)
      (lineNumber : Nat)
  | parseFailed (message : String) (lineNumber : Nat)
  deriving DecidableEq, Repr

/-- `EdneParser::parse_line`: split one line at the separator. -/
def parseLine (line : List Char) : List (List Char) :=
  splitSep fieldSeparator line

/-- `EdneParser::parse_line_checked`: split and validate the field count. -/
def parseLineChecked (line : List Char) (expectedCount lineNumber : Nat) :
    Except ParseError (List (List Char)) :=
  let fields := parseLine line
  if fields.length ≠ expectedCount then
    .error (.fieldCount expectedCount fields.length lineNumber)
  else
    .ok fields

/-- Helper for `EdneParser::lines`: enumerate the raw lines starting at
zero-based index `i`, keep the non-blank ones with 1-based numbers. -/
def enumNonBlank (i : Nat) : List (List Char) → List (Nat × List Char)
  | [] => []
  | l :: rest =>
    if (rustTrim l).isEmpty then enumNonBlank (i + 1) rest
    else (i + 1, l) :: enumNonBlank (i + 1) rest

/-- `EdneParser::lines`: 1-based (line number, line) pairs over the
content, skipping lines blank after trimming; numbers reflect the
original position including skipped lines. -/
def parserLines (content : List Char) : List (Nat × List Char) :=
  enumNonBlank 0 (rustLines content)

/-- `EdneParser::required_field`: reject a field blank after trimming,
otherwise keep the untrimmed content. -/
def requiredField (field : List Char) (fieldName : String)
    (lineNumber : Nat) : Except ParseError (List Char) :=
  if (rustTrim field).isEmpty then
    .error (.emptyField fieldName lineNumber)
  else
    .ok field

/-- `EdneParser::optional_field`: `none` for a field blank after
trimming, otherwise the untrimmed content. -/
def optionalField (field : List Char) : Option (List Char) :=
  if (rustTrim field).isEmpty then none else some field

/-- `EdneParser::decode_iso8859_1`: one byte maps to one code point. -/
def decodeIso88591 (bytes : List (Fin 256)) :
    Except ParseError (List Char) :=
  .ok (bytes.map fun b => Char.ofNat b.val)

end Edne

namespace Edne

/-! State codes (`models/uf.rs`). -/

/-- Brazilian federative units (`Uf`). -/
inductive Uf where
  | AC | AL | AP | AM | BA | CE | DF | ES | GO | MA | MT | MS | MG
  | PA | PB | PR | PE | PI | RJ | RN | RS | RO | RR | SC | SP | SE | TO
  deriving DecidableEq, Repr

/-- Parsing errors for `Uf` (`UfParseError`). -/
inductive UfParseError where
  | empty
  | wrongLength (n : Nat)
  | invalidCode (s : List Char)
  deriving DecidableEq, Repr

/-- The 27-way match of `Uf::from_str` on the upper-cased code. -/
def ufCode : List Char → Option Uf
  | ['A', 'C'] => some .AC
  | ['A', 'L'] => some .AL
  | ['A', 'P'] => some .AP
  | ['A', 'M'] => some .AM
  | ['B', 'A'] => some .BA
  | ['C', 'E'] => some .CE
  | ['D', 'F'] => some .DF
  | ['E', 'S'] => some .ES
  | ['G', 'O'] => some .GO
  | ['M', 'A'] => some .MA
  | ['M', 'T'] => some .MT
  | ['M', 'S'] => some .MS
  | ['M', 'G'] => some .MG
  | ['P', 'A'] => some .PA
  | ['P', 'B'] => some .PB
  | ['P', 'R'] => some .PR
  | ['P', 'E'] => some .PE
  | ['P', 'I'] => some .PI
  | ['R', 'J'] => some .RJ
  | ['R', 'N'] => some .RN
  | ['R', 'S'] => some .RS
  | ['R', 'O'] => some .RO
  | ['R', 'R'] => some .RR
  | ['S', 'C'] => some .SC
  | ['S', 'P'] => some .SP
  | ['S', 'E'] => some .SE
  | ['T', 'O'] => some .TO
  | _ => none

/-- `Uf::from_str`: trim, reject empty input, reject input whose byte
length is not 2, then match the ASCII-upper-cased code. -/
def ufFromStr (s : List Char) : Except UfParseError Uf :=
  let trimmed := rustTrim s
  if trimmed.isEmpty then .error .empty
  else if utf8Len trimmed ≠ 2 then .error (.wrongLength (utf8Len trimmed))
  else
    match ufCode (upperAscii trimmed) with
    | some uf => .ok uf
    | none => .error (.invalidCode trimmed)

/-- Wrap a string in the single quotes used by the `Display`
renderings. -/
def quoteStr (s : String) : String :=
  String.mk ('\x27' :: s.data) ++ String.mk ['\x27']

/-- Rendering of `UfParseError`'s `Display` implementation. -/
def ufParseErrorMsg : UfParseError → String
  | .empty => "UF code is empty"
  | .wrongLength n => "UF code must have length 2, got " ++ toString n
  | .invalidCode s => "invalid UF code: " ++ String.mk s

/-! Typed identifiers.  The six identifier newtypes of the models
(`LocalityId`, `NeighborhoodId`, `AddressId`, `BigUserId`,
`OperationalUnitId`, `CpcId`) wrap a `u32` and share one construction
pattern; the wrapped value is modelled as a `Nat` below `2 ^ 32`. -/

/-- Rust `u32::from_str`: an optional leading plus sign, then one or
more ASCII digits, with the value bounded by the `u32` maximum. -/
def parseU32 (s : List Char) : Option Nat :=
  let digits := match s with
    | '+' :: rest => rest
    | _ => s
  if digits.isEmpty then none
  else if digits.all Char.isDigit then
    let v := digits.foldl (fun acc c => acc * 10 + (c.toNat - 48)) 0
    if v < 2 ^ 32 then some v else none
  else none

/-- Errors shared by the six identifier newtypes (`*IdError`). -/
inductive IdError where
  | zero
  | invalidFormat (s : List Char)
  deriving DecidableEq, Repr

/-- The `TryFrom<u32>` implementation shared by the six identifier
newtypes: reject the zero value. -/
def idTryFrom (value : Nat) : Except IdError Nat :=
  if value = 0 then .error .zero else .ok value

/-- The `FromStr` implementation shared by the six identifier newtypes:
trim, parse as `u32` (invalid-format error carries the original
input), then apply the zero check. -/
def idFromStr (s : List Char) : Except IdError Nat :=
  match parseU32 (rustTrim s) with
  | none => .error (.invalidFormat s)
  | some value => idTryFrom value

/-- `LocalityId::from_str` (`models/locality.rs`). -/
def localityIdFromStr (s : List Char) : Except IdError Nat := idFromStr s

/-- `NeighborhoodId::from_str` (`models/neighborhood.rs`). -/
def neighborhoodIdFromStr (s : List Char) : Except IdError Nat := idFromStr s

/-- `AddressId::from_str` (`models/address.rs`). -/
def addressIdFromStr (s : List Char) : Except IdError Nat := idFromStr s

/-- `BigUserId::from_str` (`models/big_user.rs`). -/
def bigUserIdFromStr (s : List Char) : Except IdError Nat := idFromStr s

/-- `OperationalUnitId::from_str` (`models/operational_unit.rs`). -/
def operationalUnitIdFromStr (s : List Char) : Except IdError Nat := idFromStr s

/-- `CpcId::from_str` (`models/cpc.rs`). -/
def cpcIdFromStr (s : List Char) : Except IdError Nat := idFromStr s

/-- Rendering of `LocalityIdError`'s `Display` implementation. -/
def localityIdErrorMsg : IdError → String
  | .zero => "locality ID cannot be zero"
  | .invalidFormat s =>
    "invalid locality ID format: " ++ quoteStr (String.mk s)

/-! Locality enumerations (`models/locality.rs`). -/

/-- `LocalitySituation`: the coding level of a locality. -/
inductive LocalitySituation where
  | notCoded
  | coded
  | districtOrVillage
  | codingInProgress
  deriving DecidableEq, Repr

/-- Errors when parsing `LocalitySituation`. -/
inductive LocalitySituationError where
  | invalidCode (s : List Char)
  deriving DecidableEq, Repr

/-- `LocalitySituation::from_str`: match the trimmed digit literally. -/
def localitySituationFromStr (s : List Char) :
    Except LocalitySituationError LocalitySituation :=
  match rustTrim s with
  | ['0'] => .ok .notCoded
  | ['1'] => .ok .coded
  | ['2'] => .ok .districtOrVillage
  | ['3'] => .ok .codingInProgress
  | other => .error (.invalidCode other)

/-- Rendering of `LocalitySituationError`'s `Display` implementation. -/
def localitySituationErrorMsg : LocalitySituationError → String
  | .invalidCode s =>
    "invalid locality situation code: " ++ quoteStr (String.mk s)

/-- `LocalityType`: district, municipality or village. -/
inductive LocalityType where
  | district
  | municipality
  | village
  deriving DecidableEq, Repr

/-- Errors when parsing `LocalityType`. -/
inductive LocalityTypeError where
  | invalidCode (s : List Char)
  deriving DecidableEq, Repr

/-- `LocalityType::from_str`: match the trimmed, upper-cased letter. -/
def localityTypeFromStr (s : List Char) :
    Except LocalityTypeError LocalityType :=
  match upperAscii (rustTrim s) with
  | ['D'] => .ok .district
  | ['M'] => .ok .municipality
  | ['P'] => .ok .village
  | other => .error (.invalidCode other)

/-- Rendering of `LocalityTypeError`'s `Display` implementation. -/
def localityTypeErrorMsg : LocalityTypeError → String
  | .invalidCode s =>
    "invalid locality type code: " ++ quoteStr (String.mk s)

/-- `StreetTypeIndicator` (`models/address.rs`): whether the street
type label is used for display. -/
inductive StreetTypeIndicator where
  | yes
  | no
  deriving DecidableEq, Repr

/-- `PostBoxIndicator` (`models/operational_unit.rs`). -/
inductive PostBoxIndicator where
  | yes
  | no
  deriving DecidableEq, Repr

end Edne

namespace Edne

/-! The locality record and its line parser
(`models/locality.rs`, `parser/localities.rs`). -/

/-- The `Locality` record. -/
structure Locality where
  id : Nat
  uf : Uf
  name : String
  cep : Option String
  situation : LocalitySituation
  localityType : LocalityType
  subordinateTo : Option Nat
  abbreviatedName : Option String
  ibgeCode : Option String
  deriving DecidableEq, Repr

/-- `LOCALITY_FIELD_COUNT`: a locality record has 9 fields. -/
def localityFieldCount : Nat := 9

/-- The field extraction of `parse_locality_line` after the arity
check, strictly in the source's order. -/
def parseLocalityFields (fields : List (List Char)) (lineNumber : Nat) :
    Except ParseError Locality :=
  match requiredField (fields.getD 0 []) "LOC_NU" lineNumber with
  | .error e => .error e
  | .ok idStr =>
  match localityIdFromStr idStr with
  | .error e =>
    .error (.invalidValue "LOC_NU" (String.mk idStr)
      (localityIdErrorMsg e) lineNumber)
  | .ok id =>
  match requiredField (fields.getD 1 []) "UFE_SG" lineNumber with
  | .error e => .error e
  | .ok ufStr =>
  match ufFromStr ufStr with
  | .error e =>
    .error (.invalidValue "UFE_SG" (String.mk ufStr)
      (ufParseErrorMsg e) lineNumber)
  | .ok uf =>
  match requiredField (fields.getD 2 []) "LOC_NO" lineNumber with
  | .error e => .error e
  | .ok name =>
  match requiredField (fields.getD 4 []) "LOC_IN_SIT" lineNumber with
  | .error e => .error e
  | .ok situationStr =>
  match localitySituationFromStr situationStr with
  | .error e =>
    .error (.invalidValue "LOC_IN_SIT" (String.mk situationStr)
      (localitySituationErrorMsg e) lineNumber)
  | .ok situation =>
  match requiredField (fields.getD 5 []) "LOC_IN_TIPO_LOC" lineNumber with
  | .error e => .error e
  | .ok typeStr =>
  match localityTypeFromStr typeStr with
  | .error e =>
    .error (.invalidValue "LOC_IN_TIPO_LOC" (String.mk typeStr)
      (localityTypeErrorMsg e) lineNumber)
  | .ok localityType =>
  let cep := (optionalField (fields.getD 3 [])).map String.mk
  match optionalField (fields.getD 6 []) with
  | some subStr =>
    (match localityIdFromStr subStr with
     | .error e =>
       .error (.invalidValue "LOC_NU_SUB" (String.mk subStr)
         (localityIdErrorMsg e) lineNumber)
     | .ok subId =>
       .ok
         { id, uf, name := String.mk name, cep, situation, localityType,
           subordinateTo := some subId,
           abbreviatedName := (optionalField (fields.getD 7 [])).map String.mk,
           ibgeCode := (optionalField (fields.getD 8 [])).map String.mk })
  | none =>
    .ok
      { id, uf, name := String.mk name, cep, situation, localityType,
        subordinateTo := none,
        abbreviatedName := (optionalField (fields.getD 7 [])).map String.mk,
        ibgeCode := (optionalField (fields.getD 8 [])).map String.mk }

/-- `parse_locality_line`: arity check, then field extraction. -/
def parseLocalityLine (line : List Char) (lineNumber : Nat) :
    Except ParseError Locality :=
  match parseLineChecked line localityFieldCount lineNumber with
  | .error e => .error e
  | .ok fields => parseLocalityFields fields lineNumber

/-! Association-list maps standing for the `HashMap` collections.
Keys are kept in strictly ascending order, so that maps with equal
contents are equal lists. -/

/-- Point lookup in an association list (`HashMap::get`). -/
def aGet {α : Type} (k : Nat) : List (Nat × α) → Option α
  | [] => none
  | (k', v) :: rest => if k = k' then some v else aGet k rest

/-- Key-ordered insertion (`HashMap::insert`): replaces the entry with
the same key if present. -/
def aInsert {α : Type} (k : Nat) (v : α) : List (Nat × α) → List (Nat × α)
  | [] => [(k, v)]
  | (k', v') :: rest =>
    if k < k' then (k, v) :: (k', v') :: rest
    else if k = k' then (k, v) :: rest
    else (k', v') :: aInsert k v rest

/-- `Localities::parse_with_parser`: parse each enumerated line,
aborting on the first failure, inserting each record keyed by its own
identifier (a duplicate identifier silently replaces). -/
def parseLocalitiesLines :
    List (Nat × List Char) → List (Nat × Locality) →
    Except ParseError (List (Nat × Locality))
  | [], acc => .ok acc
  | (n, line) :: rest, acc =>
    match parseLocalityLine line n with
    | .error e => .error e
    | .ok loc => parseLocalitiesLines rest (aInsert loc.id loc acc)

/-- `Localities::from_utf8`. -/
def localitiesFromUtf8 (content : List Char) :
    Except ParseError (List (Nat × Locality)) :=
  parseLocalitiesLines (parserLines content) []

/-- `Localities::from_iso8859_1`: decode, then parse. -/
def localitiesFromIso88591 (bytes : List (Fin 256)) :
    Except ParseError (List (Nat × Locality)) := do
  let content ← decodeIso88591 bytes
  localitiesFromUtf8 content

end Edne

deriving instance DecidableEq for Except

/-- The spec's minimal-locality scenario line parses to the expected
record. -/
theorem localities_sample_line_parses :
    Edne.localitiesFromUtf8
        "16@AC@Rio Branco@@1@M@@Rio Branco@1200401".toList =
      .ok [(16, ({ id := 16, uf := .AC, name := "Rio Branco",
                   cep := none, situation := .coded,
                   localityType := .municipality, subordinateTo := none,
                   abbreviatedName := some "Rio Branco",
                   ibgeCode := some "1200401" } : Edne.Locality))] := by
  decide

/-- A six-field locality line fails with the exact field-count error. -/
theorem localities_sample_arity_error :
    Edne.localitiesFromUtf8 "15321@AC@Terra@69939810@0@P".toList =
      .error (.fieldCount 9 6 1) := by
  decide

namespace Edne

/-! The remaining entity records (`models/`). -/

/-- The `Neighborhood` record. -/
structure Neighborhood where
  id : Nat
  uf : Uf
  localityId : Nat
  name : String
  abbreviatedName : Option String
  deriving DecidableEq, Repr

/-- The `Address` (street) record. -/
structure Address where
  id : Nat
  uf : Uf
  localityId : Nat
  neighborhoodIdStart : Nat
  neighborhoodIdEnd : Option Nat
  name : String
  complement : Option String
  cep : String
  streetType : String
  streetTypeIndicator : Option StreetTypeIndicator
  abbreviatedName : Option String
  deriving DecidableEq, Repr

/-- The `BigUser` record. -/
structure BigUser where
  id : Nat
  uf : Uf
  localityId : Nat
  neighborhoodId : Nat
  streetId : Option Nat
  name : String
  address : String
  cep : String
  abbreviatedName : Option String
  deriving DecidableEq, Repr

/-- The `OperationalUnit` record. -/
structure OperationalUnit where
  id : Nat
  uf : Uf
  localityId : Nat
  neighborhoodId : Nat
  streetId : Option Nat
  name : String
  address : String
  cep : String
  postBoxIndicator : PostBoxIndicator
  abbreviatedName : Option String
  deriving DecidableEq, Repr

/-- The `Cpc` (community postal box) record. -/
structure Cpc where
  id : Nat
  uf : Uf
  localityId : Nat
  name : String
  address : String
  cep : String
  deriving DecidableEq, Repr

end Edne

namespace Edne

/-! The unified lookup (`cli/src/cep_lookup.rs`). -/

/-- The entity-kind tag of a lookup entry (`CepType`). -/
inductive CepType where
  | uncodedLocality
  | street
  | bigUser
  | operationalUnit
  | cpc
  deriving DecidableEq, Repr

/-- A unified-lookup entry (`CepInfo`). -/
structure CepInfo where
  cep : String
  uf : Uf
  locality : String
  neighborhood : Option String
  address : String
  complement : Option String
  type : CepType
  deriving DecidableEq, Repr

/-- The backing entries of a `CepLookup`, one `(cep, info)` pair per
key, in unspecified order. -/
def CepEntries : Type := List (String × CepInfo)

/-- Point lookup among lookup entries (`HashMap::get` keyed by cep). -/
def cepGet (cep : String) : List (String × CepInfo) → Option CepInfo
  | [] => none
  | (k, v) :: rest => if k = cep then some v else cepGet cep rest

/-- `CepLookup::insert`: `self.ceps.insert(info.cep.clone(), info)` —
replaces the entry sharing the key, otherwise adds a new entry. -/
def cepInsert (info : CepInfo) :
    List (String × CepInfo) → List (String × CepInfo)
  | [] => [(info.cep, info)]
  | (k, v) :: rest =>
    if k = info.cep then (info.cep, info) :: rest
    else (k, v) :: cepInsert info rest

/-- The main lookup structure (`CepLookup`). -/
structure CepLookup where
  ceps : List (String × CepInfo)
  deriving DecidableEq, Repr

/-- `CepLookup::get`. -/
def CepLookup.get (l : CepLookup) (cep : String) : Option CepInfo :=
  cepGet cep l.ceps

/-- `CepLookup::lookup` delegates to `get`. -/
def CepLookup.lookup (l : CepLookup) (cep : String) : Option CepInfo :=
  l.get cep

/-- `CepLookup::len`. -/
def CepLookup.len (l : CepLookup) : Nat :=
  l.ceps.length

/-- `CepLookup::insert` at the structure level. -/
def CepLookup.insert (l : CepLookup) (info : CepInfo) : CepLookup :=
  ⟨cepInsert info l.ceps⟩

/-- The builder's staging area (`CepLookupBuilder`): six accumulated
`HashMap`s, modelled as key-ascending association lists. -/
structure CepLookupBuilder where
  localities : List (Nat × Locality)
  neighborhoods : List (Nat × Neighborhood)
  addresses : List (Nat × Address)
  bigUsers : List (Nat × BigUser)
  operationalUnits : List (Nat × OperationalUnit)
  cpcs : List (Nat × Cpc)
  deriving DecidableEq, Repr

/-- `CepLookupBuilder::new`. -/
def CepLookupBuilder.new : CepLookupBuilder :=
  ⟨[], [], [], [], [], []⟩

/-- The values of a collection, in iteration order. -/
def mapValues {α : Type} (m : List (Nat × α)) : List α :=
  m.map Prod.snd

/-- Stage 1 entry for a locality with a defined postal code: the
display name of the parent locality (one subordination level) fills
the neighborhood field, the address text is empty. -/
def localityEntry (b : CepLookupBuilder) (l : Locality) (cep : String) :
    CepInfo :=
  { cep := cep
    uf := l.uf
    locality := l.name
    neighborhood :=
      match l.subordinateTo with
      | some subId => (aGet subId b.localities).map Locality.name
      | none => none
    address := ""
    complement := none
    type := .uncodedLocality }

/-- Stage 1 entries: one per locality with a defined postal code. -/
def localityEntries (b : CepLookupBuilder) : List CepInfo :=
  (mapValues b.localities).filterMap fun l =>
    (l.cep).map (localityEntry b l)

/-- Stage 2 entry for an address: owning locality name (empty when
unresolved), starting neighborhood name (absent when unresolved), and
the display address text from the street-type-usage flag. -/
def addressEntry (b : CepLookupBuilder) (a : Address) : CepInfo :=
  { cep := a.cep
    uf := a.uf
    locality := ((aGet a.localityId b.localities).map Locality.name).getD ""
    neighborhood :=
      (aGet a.neighborhoodIdStart b.neighborhoods).map Neighborhood.name
    address :=
      if a.streetTypeIndicator = some StreetTypeIndicator.yes then
        a.streetType ++ " " ++ a.name
      else a.name
    complement := a.complement
    type := .street }

/-- Stage 2 entries: one per address. -/
def addressEntries (b : CepLookupBuilder) : List CepInfo :=
  (mapValues b.addresses).map (addressEntry b)

/-- Stage 3 entry for a big user: its name goes to the complement
field, its address text is the display address. -/
def bigUserEntry (b : CepLookupBuilder) (u : BigUser) : CepInfo :=
  { cep := u.cep
    uf := u.uf
    locality := ((aGet u.localityId b.localities).map Locality.name).getD ""
    neighborhood :=
      (aGet u.neighborhoodId b.neighborhoods).map Neighborhood.name
    address := u.address
    complement := some u.name
    type := .bigUser }

/-- Stage 3 entries: one per big user. -/
def bigUserEntries (b : CepLookupBuilder) : List CepInfo :=
  (mapValues b.bigUsers).map (bigUserEntry b)

/-- Stage 4 entry for an operational unit, same shape as stage 3. -/
def opUnitEntry (b : CepLookupBuilder) (u : OperationalUnit) : CepInfo :=
  { cep := u.cep
    uf := u.uf
    locality := ((aGet u.localityId b.localities).map Locality.name).getD ""
    neighborhood :=
      (aGet u.neighborhoodId b.neighborhoods).map Neighborhood.name
    address := u.address
    complement := some u.name
    type := .operationalUnit }

/-- Stage 4 entries: one per operational unit. -/
def opUnitEntries (b : CepLookupBuilder) : List CepInfo :=
  (mapValues b.operationalUnits).map (opUnitEntry b)

/-- Stage 5 entry for a community postal box: locality name only, no
neighborhood field. -/
def cpcEntry (b : CepLookupBuilder) (p : Cpc) : CepInfo :=
  { cep := p.cep
    uf := p.uf
    locality := ((aGet p.localityId b.localities).map Locality.name).getD ""
    neighborhood := none
    address := p.address
    complement := some p.name
    type := .cpc }

/-- Stage 5 entries: one per community postal box. -/
def cpcEntries (b : CepLookupBuilder) : List CepInfo :=
  (mapValues b.cpcs).map (cpcEntry b)

/-- Insert a list of entries in order (one stage's loop of
`lookup.insert(...)` calls). -/
def insertAll (m : List (String × CepInfo)) (entries : List CepInfo) :
    List (String × CepInfo) :=
  entries.foldl (fun acc i => cepInsert i acc) m

/-- `CepLookupBuilder::build`: the five merge stages in their fixed
order — uncoded localities, streets, big users, operational units,
community postal boxes — each inserting into the same lookup. -/
def CepLookupBuilder.build (b : CepLookupBuilder) : CepLookup :=
  let m1 := insertAll [] (localityEntries b)
  let m2 := insertAll m1 (addressEntries b)
  let m3 := insertAll m2 (bigUserEntries b)
  let m4 := insertAll m3 (opUnitEntries b)
  let m5 := insertAll m4 (cpcEntries b)
  ⟨m5⟩

end Edne

namespace Edne

/-! Lemmas about the lookup map operations. -/

theorem cepGet_cepInsert (i : CepInfo) (m : List (String × CepInfo))
    (c : String) :
    cepGet c (cepInsert i m) = if c = i.cep then some i else cepGet c m := by
  induction m with
  | nil => simp [cepInsert, cepGet, eq_comm]
  | cons p rest ih =>
    obtain ⟨k, v⟩ := p
    by_cases hk : k = i.cep
    · by_cases hc : c = i.cep
      · simp [cepInsert, cepGet, hk, hc]
      · have hic : i.cep ≠ c := fun h => hc h.symm
        have hkc : k ≠ c := by rw [hk]; exact hic
        simp [cepInsert, cepGet, hk, hc, hic, hkc]
    · by_cases hc : c = k
      · have h1 : c ≠ i.cep := by rw [hc]; exact hk
        have h2 : k = c := hc.symm
        simp [cepInsert, cepGet, hk, h1, h2]
      · have h2 : k ≠ c := fun h => hc h.symm
        simp [cepInsert, cepGet, hk, hc, h2, ih]

/-- The last entry in a stage's emission list carrying the given
postal code, if any. -/
def lastWith (c : String) : List CepInfo → Option CepInfo
  | [] => none
  | i :: es =>
    match lastWith c es with
    | some j => some j
    | none => if i.cep = c then some i else none

theorem lastWith_cons (c : String) (i : CepInfo) (es : List CepInfo) :
    lastWith c (i :: es) =
      (lastWith c es).or (if i.cep = c then some i else none) := by
  cases h : lastWith c es <;> simp [lastWith, h, Option.or]

theorem lastWith_mem {c : String} {es : List CepInfo} {j : CepInfo}
    (h : lastWith c es = some j) : j ∈ es ∧ j.cep = c := by
  induction es with
  | nil => simp [lastWith] at h
  | cons i es ih =>
    rw [lastWith_cons] at h
    cases h' : lastWith c es with
    | some j' =>
      rw [h'] at h
      simp [Option.or] at h
      subst h
      exact ⟨List.mem_cons_of_mem _ (ih h').1, (ih h').2⟩
    | none =>
      rw [h'] at h
      simp [Option.or] at h
      by_cases hc : i.cep = c
      · simp [hc] at h
        subst h
        exact ⟨List.mem_cons_self _ _, hc⟩
      · simp [hc] at h

theorem lastWith_isSome {c : String} {es : List CepInfo}
    (h : ∃ i ∈ es, i.cep = c) : (lastWith c es).isSome := by
  induction es with
  | nil => simp at h
  | cons i es ih =>
    rw [lastWith_cons]
    rcases h with ⟨j, hj, hjc⟩
    rcases List.mem_cons.mp hj with rfl | hj'
    · cases h' : lastWith c es <;> simp [Option.or, h', hjc]
    · have := ih ⟨j, hj', hjc⟩
      cases h' : lastWith c es <;> simp [h', Option.or] at this ⊢

theorem lastWith_eq_none {c : String} {es : List CepInfo}
    (h : ∀ i ∈ es, i.cep ≠ c) : lastWith c es = none := by
  induction es with
  | nil => rfl
  | cons i es ih =>
    rw [lastWith_cons, ih fun j hj => h j (List.mem_cons_of_mem _ hj)]
    simp [Option.or, h i (List.mem_cons_self _ _)]

theorem cepGet_insertAll (m : List (String × CepInfo))
    (es : List CepInfo) (c : String) :
    cepGet c (insertAll m es) = (lastWith c es).or (cepGet c m) := by
  induction es generalizing m with
  | nil => simp [insertAll, lastWith, Option.or]
  | cons i es ih =>
    have step : insertAll m (i :: es) = insertAll (cepInsert i m) es := rfl
    rw [step, ih, lastWith_cons, cepGet_cepInsert]
    cases h : lastWith c es with
    | some j => simp [Option.or]
    | none =>
      by_cases hc : i.cep = c <;>
        simp [Option.or, hc, eq_comm (a := c) (b := i.cep)]

theorem insertAll_append (m : List (String × CepInfo))
    (es fs : List CepInfo) :
    insertAll m (es ++ fs) = insertAll (insertAll m es) fs := by
  simp [insertAll, List.foldl_append]

end Edne

namespace Edne

/-! Key and consistency facts about lookup maps. -/

theorem or_isSome {α : Type} (a b : Option α) :
    (a.or b).isSome = (a.isSome || b.isSome) := by
  cases a <;> simp [Option.or]

/-- The keys of a lookup map, in entry order. -/
def keyList (m : List (String × CepInfo)) : List String :=
  m.map Prod.fst

theorem keyList_cepInsert (i : CepInfo) (m : List (String × CepInfo)) :
    keyList (cepInsert i m) =
      if i.cep ∈ keyList m then keyList m else keyList m ++ [i.cep] := by
  induction m with
  | nil => simp [cepInsert, keyList]
  | cons p rest ih =>
    obtain ⟨k, v⟩ := p
    by_cases hk : k = i.cep
    · simp [cepInsert, keyList, hk]
    · have hik : ¬ i.cep = k := fun h => hk h.symm
      have e1 : cepInsert i ((k, v) :: rest) = (k, v) :: cepInsert i rest := by
        simp [cepInsert, hk]
      by_cases hm : i.cep ∈ keyList rest
      · rw [e1]
        have e2 : i.cep ∈ keyList ((k, v) :: rest) := by
          simp only [keyList, List.map_cons, List.mem_cons]
          exact Or.inr hm
        rw [if_pos e2]
        have h3 := ih
        rw [if_pos hm] at h3
        simp only [keyList, List.map_cons] at h3 ⊢
        rw [h3]
      · rw [e1]
        have e2 : i.cep ∉ keyList ((k, v) :: rest) := by
          simp only [keyList, List.map_cons, List.mem_cons]
          rintro (h | h)
          · exact hik h
          · exact hm h
        rw [if_neg e2]
        have h3 := ih
        rw [if_neg hm] at h3
        simp only [keyList, List.map_cons, List.cons_append] at h3 ⊢
        rw [h3]

theorem length_cepInsert (i : CepInfo) (m : List (String × CepInfo)) :
    (cepInsert i m).length =
      if i.cep ∈ keyList m then m.length else m.length + 1 := by
  have hk := keyList_cepInsert i m
  have h1 : (cepInsert i m).length = (keyList (cepInsert i m)).length := by
    simp [keyList]
  have h2 : m.length = (keyList m).length := by simp [keyList]
  rw [h1, hk]
  by_cases hm : i.cep ∈ keyList m <;> simp [hm, h2]

theorem nodup_keyList_cepInsert {i : CepInfo} {m : List (String × CepInfo)}
    (h : (keyList m).Nodup) : (keyList (cepInsert i m)).Nodup := by
  rw [keyList_cepInsert]
  by_cases hm : i.cep ∈ keyList m <;> simp [hm, h, List.Nodup.append]

/-- The key set of a lookup map. -/
def keyFinset (m : List (String × CepInfo)) : Finset String :=
  (keyList m).toFinset

theorem keyFinset_cepInsert (i : CepInfo) (m : List (String × CepInfo)) :
    keyFinset (cepInsert i m) = insert i.cep (keyFinset m) := by
  apply Finset.ext
  intro c
  rw [keyFinset, keyFinset, List.mem_toFinset, keyList_cepInsert]
  by_cases hm : i.cep ∈ keyList m
  · rw [if_pos hm]
    simp only [Finset.mem_insert, List.mem_toFinset]
    constructor
    · exact Or.inr
    · rintro (rfl | h)
      · exact hm
      · exact h
  · rw [if_neg hm]
    simp only [Finset.mem_insert, List.mem_toFinset, List.mem_append,
      List.mem_singleton]
    tauto

/-- Every entry's stored postal code agrees with its key. -/
def entriesConsistent (m : List (String × CepInfo)) : Prop :=
  ∀ p ∈ m, p.2.cep = p.1

theorem entriesConsistent_nil : entriesConsistent [] := by
  intro p hp
  simp at hp

theorem entriesConsistent_cepInsert {m : List (String × CepInfo)}
    (i : CepInfo) (h : entriesConsistent m) :
    entriesConsistent (cepInsert i m) := by
  induction m with
  | nil =>
    intro p hp
    simp [cepInsert] at hp
    simp [hp]
  | cons q rest ih =>
    obtain ⟨k, v⟩ := q
    have hrest : entriesConsistent rest := fun p hp =>
      h p (List.mem_cons_of_mem _ hp)
    by_cases hk : k = i.cep
    · intro p hp
      simp [cepInsert, hk] at hp
      rcases hp with rfl | hp
      · rfl
      · exact hrest p hp
    · intro p hp
      simp only [cepInsert, if_neg hk] at hp
      rcases List.mem_cons.mp hp with rfl | hp
      · exact h _ (List.mem_cons_self _ _)
      · exact ih hrest p hp

theorem cepGet_consistent {m : List (String × CepInfo)} {c : String}
    {i : CepInfo} (hm : entriesConsistent m) (h : cepGet c m = some i) :
    i.cep = c := by
  induction m with
  | nil => simp [cepGet] at h
  | cons p rest ih =>
    obtain ⟨k, v⟩ := p
    by_cases hk : k = c
    · rw [cepGet, if_pos hk] at h
      cases h
      rw [← hk]
      exact hm (k, i) (List.mem_cons_self _ _)
    · rw [cepGet, if_neg hk] at h
      exact ih (fun p hp => hm p (List.mem_cons_of_mem _ hp)) h

theorem insertAll_key_facts (es : List CepInfo) :
    ∀ m : List (String × CepInfo), (keyList m).Nodup →
      (keyList (insertAll m es)).Nodup ∧
      keyFinset (insertAll m es) =
        keyFinset m ∪ (es.map CepInfo.cep).toFinset ∧
      (entriesConsistent m → entriesConsistent (insertAll m es)) := by
  induction es with
  | nil =>
    intro m hm
    refine ⟨hm, ?_, fun h => h⟩
    simp [insertAll]
  | cons i es ih =>
    intro m hm
    have step : insertAll m (i :: es) = insertAll (cepInsert i m) es := rfl
    obtain ⟨h1, h2, h3⟩ := ih (cepInsert i m) (nodup_keyList_cepInsert hm)
    refine ⟨step ▸ h1, ?_, fun hc => step ▸ h3 (entriesConsistent_cepInsert i hc)⟩
    rw [step, h2, keyFinset_cepInsert]
    apply Finset.ext
    intro c
    simp [Finset.mem_union, Finset.mem_insert]
    try tauto

theorem length_eq_card_keyFinset {m : List (String × CepInfo)}
    (h : (keyList m).Nodup) : m.length = (keyFinset m).card := by
  rw [keyFinset, List.toFinset_card_of_nodup h]
  simp [keyList]

end Edne

namespace Edne

/-! Lemmas about the key-ordered builder maps. -/

theorem aGet_aInsert {α : Type} (k k' : Nat) (v : α)
    (m : List (Nat × α)) :
    aGet k' (aInsert k v m) = if k' = k then some v else aGet k' m := by
  induction m with
  | nil => simp [aInsert, aGet]
  | cons p rest ih =>
    obtain ⟨j, w⟩ := p
    rcases Nat.lt_trichotomy k j with hlt | heq | hgt
    · have h1 : Edne.aInsert k v ((j, w) :: rest) =
          (k, v) :: (j, w) :: rest := by
        simp [aInsert, hlt]
      rw [h1]
      by_cases hk : k' = k <;> simp [aGet, hk]
    · subst heq
      have h1 : Edne.aInsert k v ((k, w) :: rest) = (k, v) :: rest := by
        simp [aInsert]
      rw [h1]
      by_cases hk : k' = k <;> simp [aGet, hk]
    · have h1 : Edne.aInsert k v ((j, w) :: rest) =
          (j, w) :: Edne.aInsert k v rest := by
        have : ¬ k < j := Nat.not_lt.mpr (Nat.le_of_lt hgt)
        have hne : ¬ k = j := Nat.ne_of_gt hgt
        simp [aInsert, this, hne]
      rw [h1]
      by_cases hj : k' = j
      · have h2 : ¬ k' = k := by
          rw [hj]
          exact Nat.ne_of_lt hgt
        simp [aGet, hj, h2, Nat.ne_of_lt hgt]
      · simp [aGet, hj, ih]

theorem aInsert_subset {α : Type} {k : Nat} {v : α} {m : List (Nat × α)} :
    ∀ p ∈ aInsert k v m, p = (k, v) ∨ p ∈ m := by
  induction m with
  | nil => simp [aInsert]
  | cons q rest ih =>
    obtain ⟨j, w⟩ := q
    intro p hp
    rcases Nat.lt_trichotomy k j with hlt | heq | hgt
    · simp only [aInsert, if_pos hlt, List.mem_cons] at hp
      rcases hp with rfl | rfl | hp
      · exact Or.inl rfl
      · exact Or.inr (List.mem_cons_self _ _)
      · exact Or.inr (List.mem_cons_of_mem _ hp)
    · subst heq
      have h1 : Edne.aInsert k v ((k, w) :: rest) = (k, v) :: rest := by
        simp [aInsert]
      rw [h1] at hp
      rcases List.mem_cons.mp hp with rfl | hp
      · exact Or.inl rfl
      · exact Or.inr (List.mem_cons_of_mem _ hp)
    · have h1 : ¬ k < j := Nat.not_lt.mpr (Nat.le_of_lt hgt)
      have hne : ¬ k = j := Nat.ne_of_gt hgt
      simp only [aInsert, if_neg h1, if_neg hne, List.mem_cons] at hp
      rcases hp with rfl | hp
      · exact Or.inr (List.mem_cons_self _ _)
      · rcases ih p hp with h | h
        · exact Or.inl h
        · exact Or.inr (List.mem_cons_of_mem _ h)

/-- Keys strictly ascend along the list. -/
def keysSorted {α : Type} (m : List (Nat × α)) : Prop :=
  List.Pairwise (fun p q => p.1 < q.1) m

theorem keysSorted_aInsert {α : Type} (k : Nat) (v : α)
    {m : List (Nat × α)} (h : keysSorted m) :
    keysSorted (aInsert k v m) := by
  induction m with
  | nil => simp [aInsert, keysSorted]
  | cons q rest ih =>
    obtain ⟨j, w⟩ := q
    have hhead : ∀ q ∈ rest, j < q.1 :=
      fun q hq => List.rel_of_pairwise_cons h hq
    have hrest : keysSorted rest := (List.pairwise_cons.mp h).2
    rcases Nat.lt_trichotomy k j with hlt | heq | hgt
    · have h1 : Edne.aInsert k v ((j, w) :: rest) =
          (k, v) :: (j, w) :: rest := by
        simp [aInsert, hlt]
      rw [h1]
      refine List.pairwise_cons.mpr ⟨?_, h⟩
      intro q hq
      rcases List.mem_cons.mp hq with rfl | hq'
      · exact hlt
      · exact Nat.lt_trans hlt (hhead q hq')
    · subst heq
      have h1 : Edne.aInsert k v ((k, w) :: rest) = (k, v) :: rest := by
        simp [aInsert]
      rw [h1]
      exact List.pairwise_cons.mpr ⟨hhead, hrest⟩
    · have h1 : Edne.aInsert k v ((j, w) :: rest) =
          (j, w) :: Edne.aInsert k v rest := by
        have hnl : ¬ k < j := Nat.not_lt.mpr (Nat.le_of_lt hgt)
        have hne : ¬ k = j := Nat.ne_of_gt hgt
        simp [aInsert, hnl, hne]
      rw [h1]
      refine List.pairwise_cons.mpr ⟨?_, ih hrest⟩
      intro q hq
      rcases aInsert_subset q hq with rfl | hq'
      · exact hgt
      · exact hhead q hq'

theorem aGet_head {α : Type} (j : Nat) (w : α) (t : List (Nat × α)) :
    aGet j ((j, w) :: t) = some w := by
  simp [aGet]

theorem aGet_eq_none {α : Type} {k : Nat} {m : List (Nat × α)}
    (h : ∀ p ∈ m, p.1 ≠ k) : aGet k m = none := by
  induction m with
  | nil => rfl
  | cons p rest ih =>
    obtain ⟨j, w⟩ := p
    have hj : j ≠ k := h (j, w) (List.mem_cons_self _ _)
    have : ¬ k = j := fun hh => hj hh.symm
    simp only [aGet, if_neg this]
    exact ih fun p hp => h p (List.mem_cons_of_mem _ hp)

theorem sorted_ext {α : Type} :
    ∀ {m1 m2 : List (Nat × α)}, keysSorted m1 → keysSorted m2 →
      (∀ k, aGet k m1 = aGet k m2) → m1 = m2 := by
  intro m1
  induction m1 with
  | nil =>
    intro m2 _ h2 hget
    cases m2 with
    | nil => rfl
    | cons p t =>
      obtain ⟨j, w⟩ := p
      have := hget j
      rw [aGet_head] at this
      simp [aGet] at this
  | cons p t1 ih =>
    intro m2 h1 h2 hget
    obtain ⟨j1, w1⟩ := p
    cases m2 with
    | nil =>
      have := hget j1
      rw [aGet_head] at this
      simp [aGet] at this
    | cons q t2 =>
      obtain ⟨j2, w2⟩ := q
      have ht1 : ∀ q ∈ t1, j1 < q.1 :=
        fun q hq => List.rel_of_pairwise_cons h1 hq
      have ht2 : ∀ q ∈ t2, j2 < q.1 :=
        fun q hq => List.rel_of_pairwise_cons h2 hq
      have hs1 : keysSorted t1 := (List.pairwise_cons.mp h1).2
      have hs2 : keysSorted t2 := (List.pairwise_cons.mp h2).2
      have hj : j1 = j2 := by
        rcases Nat.lt_trichotomy j1 j2 with hlt | heq | hgt
        · exfalso
          have hl := hget j1
          rw [aGet_head] at hl
          have : ¬ j1 = j2 := Nat.ne_of_lt hlt
          rw [aGet, if_neg this,
            aGet_eq_none fun p hp =>
              Nat.ne_of_gt (Nat.lt_trans hlt (ht2 p hp))] at hl
          exact Option.noConfusion hl
        · exact heq
        · exfalso
          have hl := hget j2
          rw [aGet_head] at hl
          have : ¬ j2 = j1 := Nat.ne_of_lt hgt
          rw [aGet, if_neg this,
            aGet_eq_none fun p hp =>
              Nat.ne_of_gt (Nat.lt_trans hgt (ht1 p hp))] at hl
          exact Option.noConfusion hl
      subst hj
      have hw : w1 = w2 := by
        have := hget j1
        rw [aGet_head, aGet_head] at this
        exact Option.some.inj this
      subst hw
      have htails : ∀ k, aGet k t1 = aGet k t2 := by
        intro k
        by_cases hk : k = j1
        · subst hk
          rw [aGet_eq_none fun p hp => Nat.ne_of_gt (ht1 p hp),
            aGet_eq_none fun p hp => Nat.ne_of_gt (ht2 p hp)]
        · have := hget k
          rw [aGet, if_neg hk, aGet, if_neg hk] at this
          exact this
      rw [ih hs1 hs2 htails]

end Edne

namespace Edne

/-! Accumulation of collections into the builder
(`CepLookupBuilder::add_*`). -/

/-- Insert every pair of a collection into a builder map, in iteration
order (the loop body of the `add_*` methods). -/
def aInsertAll {α : Type} (m : List (Nat × α)) (c : List (Nat × α)) :
    List (Nat × α) :=
  c.foldl (fun acc p => aInsert p.1 p.2 acc) m

/-- The last value for a key among the iterated pairs, if any. -/
def lastVal {α : Type} (k : Nat) : List (Nat × α) → Option α
  | [] => none
  | p :: rest => (lastVal k rest).or (if p.1 = k then some p.2 else none)

theorem lastVal_mem {α : Type} {k : Nat} {c : List (Nat × α)} {v : α}
    (h : lastVal k c = some v) : (k, v) ∈ c := by
  induction c with
  | nil => simp [lastVal] at h
  | cons p rest ih =>
    rw [lastVal] at h
    cases h' : lastVal k rest with
    | some w =>
      rw [h'] at h
      simp [Option.or] at h
      subst h
      exact List.mem_cons_of_mem _ (ih h')
    | none =>
      rw [h'] at h
      simp [Option.or] at h
      obtain ⟨hk, hv⟩ := h
      have hp : p = (k, v) := by
        obtain ⟨a, b⟩ := p
        simp at hk hv
        simp [hk, hv]
      rw [hp]
      exact List.mem_cons_self _ _

theorem aGet_aInsertAll {α : Type} (c : List (Nat × α)) :
    ∀ (m : List (Nat × α)) (k : Nat),
      aGet k (aInsertAll m c) = (lastVal k c).or (aGet k m) := by
  induction c with
  | nil => intro m k; simp [aInsertAll, lastVal, Option.or]
  | cons p rest ih =>
    intro m k
    have step : aInsertAll m (p :: rest) =
        aInsertAll (aInsert p.1 p.2 m) rest := rfl
    rw [step, ih, lastVal, aGet_aInsert]
    cases h : lastVal k rest with
    | some w => simp [Option.or]
    | none =>
      by_cases hk : p.1 = k
      · have hk2 : k = p.1 := hk.symm
        rw [if_pos hk, if_pos hk2]
        simp [Option.or]
      · have hk2 : ¬ k = p.1 := fun hh => hk hh.symm
        rw [if_neg hk, if_neg hk2]
        simp [Option.or]

theorem keysSorted_aInsertAll {α : Type} (c : List (Nat × α)) :
    ∀ {m : List (Nat × α)}, keysSorted m → keysSorted (aInsertAll m c) := by
  induction c with
  | nil => intro m hm; exact hm
  | cons p rest ih =>
    intro m hm
    exact ih (keysSorted_aInsert p.1 p.2 hm)

/-- Two collections agree on the records of every shared identifier. -/
def collsAgree {α : Type} (c1 c2 : List (Nat × α)) : Prop :=
  ∀ k v1 v2, (k, v1) ∈ c1 → (k, v2) ∈ c2 → v1 = v2

theorem collsAgree_symm {α : Type} {c1 c2 : List (Nat × α)}
    (h : collsAgree c1 c2) : collsAgree c2 c1 :=
  fun k v1 v2 h1 h2 => (h k v2 v1 h2 h1).symm

theorem aInsertAll_comm {α : Type} {m : List (Nat × α)}
    {c1 c2 : List (Nat × α)} (hm : keysSorted m) (h : collsAgree c1 c2) :
    aInsertAll (aInsertAll m c1) c2 = aInsertAll (aInsertAll m c2) c1 := by
  apply sorted_ext (keysSorted_aInsertAll c2 (keysSorted_aInsertAll c1 hm))
    (keysSorted_aInsertAll c1 (keysSorted_aInsertAll c2 hm))
  intro k
  rw [aGet_aInsertAll, aGet_aInsertAll, aGet_aInsertAll, aGet_aInsertAll]
  cases h1 : lastVal k c1 with
  | some v1 =>
    cases h2 : lastVal k c2 with
    | some v2 =>
      simp [Option.or, h k v1 v2 (lastVal_mem h1) (lastVal_mem h2)]
    | none => simp [Option.or]
  | none =>
    cases h2 : lastVal k c2 with
    | some v2 => simp [Option.or]
    | none => simp [Option.or]

end Edne

namespace Edne

/-- One accumulation call on the builder: each constructor carries the
iterated `(key, record)` pairs of the added collection. -/
inductive AddOp where
  | localities (c : List (Nat × Locality))
  | neighborhoods (c : List (Nat × Neighborhood))
  | addresses (c : List (Nat × Address))
  | bigUsers (c : List (Nat × BigUser))
  | operationalUnits (c : List (Nat × OperationalUnit))
  | cpcs (c : List (Nat × Cpc))

/-- The `add_*` methods: insert every pair of the added collection into
the corresponding builder map. -/
def applyOp (b : CepLookupBuilder) : AddOp → CepLookupBuilder
  | .localities c => { b with localities := aInsertAll b.localities c }
  | .neighborhoods c =>
    { b with neighborhoods := aInsertAll b.neighborhoods c }
  | .addresses c => { b with addresses := aInsertAll b.addresses c }
  | .bigUsers c => { b with bigUsers := aInsertAll b.bigUsers c }
  | .operationalUnits c =>
    { b with operationalUnits := aInsertAll b.operationalUnits c }
  | .cpcs c => { b with cpcs := aInsertAll b.cpcs c }

/-- A sequence of accumulation calls, applied in order. -/
def applyOps (b : CepLookupBuilder) (ops : List AddOp) : CepLookupBuilder :=
  ops.foldl applyOp b

/-- All six builder maps are key-ordered. -/
def builderSorted (b : CepLookupBuilder) : Prop :=
  keysSorted b.localities ∧ keysSorted b.neighborhoods ∧
    keysSorted b.addresses ∧ keysSorted b.bigUsers ∧
    keysSorted b.operationalUnits ∧ keysSorted b.cpcs

theorem builderSorted_new : builderSorted CepLookupBuilder.new :=
  ⟨List.Pairwise.nil, List.Pairwise.nil, List.Pairwise.nil,
    List.Pairwise.nil, List.Pairwise.nil, List.Pairwise.nil⟩

theorem builderSorted_applyOp {b : CepLookupBuilder}
    (h : builderSorted b) (o : AddOp) : builderSorted (applyOp b o) := by
  obtain ⟨h1, h2, h3, h4, h5, h6⟩ := h
  cases o with
  | localities c => exact ⟨keysSorted_aInsertAll c h1, h2, h3, h4, h5, h6⟩
  | neighborhoods c =>
    exact ⟨h1, keysSorted_aInsertAll c h2, h3, h4, h5, h6⟩
  | addresses c => exact ⟨h1, h2, keysSorted_aInsertAll c h3, h4, h5, h6⟩
  | bigUsers c => exact ⟨h1, h2, h3, keysSorted_aInsertAll c h4, h5, h6⟩
  | operationalUnits c =>
    exact ⟨h1, h2, h3, h4, keysSorted_aInsertAll c h5, h6⟩
  | cpcs c => exact ⟨h1, h2, h3, h4, h5, keysSorted_aInsertAll c h6⟩

/-- Two accumulation calls are consistent when, if they add the same
kind of collection, the two collections agree on shared identifiers. -/
def opsConsistent : AddOp → AddOp → Prop
  | .localities c1, .localities c2 => collsAgree c1 c2
  | .neighborhoods c1, .neighborhoods c2 => collsAgree c1 c2
  | .addresses c1, .addresses c2 => collsAgree c1 c2
  | .bigUsers c1, .bigUsers c2 => collsAgree c1 c2
  | .operationalUnits c1, .operationalUnits c2 => collsAgree c1 c2
  | .cpcs c1, .cpcs c2 => collsAgree c1 c2
  | _, _ => True

theorem opsConsistent_symmetric : Symmetric opsConsistent := by
  intro o1 o2 h
  cases o1 <;> cases o2 <;>
    first
    | exact collsAgree_symm h
    | trivial

theorem applyOp_comm (b : CepLookupBuilder) (hb : builderSorted b)
    (o1 o2 : AddOp) (h : opsConsistent o1 o2) :
    applyOp (applyOp b o1) o2 = applyOp (applyOp b o2) o1 := by
  obtain ⟨h1, h2, h3, h4, h5, h6⟩ := hb
  cases o1 <;> cases o2 <;>
    simp only [applyOp] <;>
    first
    | rfl
    | rw [aInsertAll_comm h1 h]
    | rw [aInsertAll_comm h2 h]
    | rw [aInsertAll_comm h3 h]
    | rw [aInsertAll_comm h4 h]
    | rw [aInsertAll_comm h5 h]
    | rw [aInsertAll_comm h6 h]

theorem applyOps_perm {ops1 ops2 : List AddOp} (hp : ops1.Perm ops2) :
    ∀ b, builderSorted b → List.Pairwise opsConsistent ops1 →
      applyOps b ops1 = applyOps b ops2 := by
  induction hp with
  | nil => intro b _ _; rfl
  | cons x p ih =>
    intro b hb hcons
    exact ih (applyOp b x) (builderSorted_applyOp hb x)
      (List.pairwise_cons.mp hcons).2
  | swap x y l =>
    intro b hb hcons
    have hxy : opsConsistent y x :=
      (List.pairwise_cons.mp hcons).1 x (List.mem_cons_self _ _)
    show applyOps (applyOp (applyOp b y) x) l =
      applyOps (applyOp (applyOp b x) y) l
    rw [applyOp_comm b hb y x hxy]
  | trans p1 p2 ih1 ih2 =>
    intro b hb hcons
    rw [ih1 b hb hcons,
      ih2 b hb ((p1.pairwise_iff
        (fun {x y} h => opsConsistent_symmetric h)).mp hcons)]

end Edne

namespace Edne

/-! Support lemmas for the parsing claims. -/

theorem charOfNat_toNat {n : Nat} (h : n < 256) :
    (Char.ofNat n).toNat = n := by
  have hv : n.isValidChar := Or.inl (by omega)
  simp [Char.ofNat, hv, Char.ofNatAux, Char.toNat, UInt32.toNat,
    BitVec.toNat_ofNatLt]

theorem enumNonBlank_mem {ls : List (List Char)} :
    ∀ {i : Nat} {p : Nat × List Char}, p ∈ enumNonBlank i ls →
      ∃ j, p.1 = i + j + 1 ∧ ls.get? j = some p.2 := by
  induction ls with
  | nil =>
    intro i p h
    simp [enumNonBlank] at h
  | cons l rest ih =>
    intro i p h
    rw [enumNonBlank] at h
    by_cases hb : (rustTrim l).isEmpty
    · rw [if_pos hb] at h
      obtain ⟨j, hj1, hj2⟩ := ih h
      exact ⟨j + 1, by omega, by simpa using hj2⟩
    · rw [if_neg hb] at h
      rcases List.mem_cons.mp h with rfl | h'
      · exact ⟨0, by omega, by simp⟩
      · obtain ⟨j, hj1, hj2⟩ := ih h'
        exact ⟨j + 1, by omega, by simpa using hj2⟩

theorem requiredField_error_shape {f : List Char} {nm : String}
    {n : Nat} {er : ParseError}
    (h : requiredField f nm n = .error er) : er = .emptyField nm n := by
  unfold requiredField at h
  by_cases hb : (rustTrim f).isEmpty
  · rw [if_pos hb] at h
    cases h
    rfl
  · rw [if_neg hb] at h
    cases h

theorem parseLocalityFields_ne_fieldCount
    (fields : List (List Char)) (n e g m : Nat) :
    parseLocalityFields fields n ≠ .error (.fieldCount e g m) := by
  intro h
  unfold parseLocalityFields at h
  cases h0 : requiredField (fields.getD 0 []) "LOC_NU" n with
  | error e0 =>
    have hs := requiredField_error_shape h0
    subst hs
    rw [h0] at h
    simp at h
  | ok f0 =>
  rw [h0] at h
  simp only [] at h
  cases h1 : localityIdFromStr f0 with
  | error e1 =>
    rw [h1] at h
    simp at h
  | ok id =>
  rw [h1] at h
  simp only [] at h
  cases h2 : requiredField (fields.getD 1 []) "UFE_SG" n with
  | error e2 =>
    have hs := requiredField_error_shape h2
    subst hs
    rw [h2] at h
    simp at h
  | ok f1 =>
  rw [h2] at h
  simp only [] at h
  cases h3 : ufFromStr f1 with
  | error e3 =>
    rw [h3] at h
    simp at h
  | ok uf =>
  rw [h3] at h
  simp only [] at h
  cases h4 : requiredField (fields.getD 2 []) "LOC_NO" n with
  | error e4 =>
    have hs := requiredField_error_shape h4
    subst hs
    rw [h4] at h
    simp at h
  | ok f2 =>
  rw [h4] at h
  simp only [] at h
  cases h5 : requiredField (fields.getD 4 []) "LOC_IN_SIT" n with
  | error e5 =>
    have hs := requiredField_error_shape h5
    subst hs
    rw [h5] at h
    simp at h
  | ok f4 =>
  rw [h5] at h
  simp only [] at h
  cases h6 : localitySituationFromStr f4 with
  | error e6 =>
    rw [h6] at h
    simp at h
  | ok situation =>
  rw [h6] at h
  simp only [] at h
  cases h7 : requiredField (fields.getD 5 []) "LOC_IN_TIPO_LOC" n with
  | error e7 =>
    have hs := requiredField_error_shape h7
    subst hs
    rw [h7] at h
    simp at h
  | ok f5 =>
  rw [h7] at h
  simp only [] at h
  cases h8 : localityTypeFromStr f5 with
  | error e8 =>
    rw [h8] at h
    simp at h
  | ok ltype =>
  rw [h8] at h
  simp only [] at h
  cases h9 : optionalField (fields.getD 6 []) with
  | some subStr =>
    rw [h9] at h
    simp only [] at h
    cases h10 : localityIdFromStr subStr with
    | error e10 =>
      rw [h10] at h
      simp at h
    | ok subId =>
      rw [h10] at h
      simp at h
  | none =>
    rw [h9] at h
    simp at h

theorem parseLocalitiesLines_ok (ls : List (Nat × List Char)) :
    ∀ acc, (∀ p ∈ ls, (parseLocalityLine p.2 p.1).isOk) →
      (parseLocalitiesLines ls acc).isOk := by
  induction ls with
  | nil =>
    intro acc _
    rfl
  | cons q rest ih =>
    intro acc hall
    obtain ⟨n, line⟩ := q
    have hhead := hall (n, line) (List.mem_cons_self _ _)
    rw [parseLocalitiesLines]
    cases h0 : parseLocalityLine line n with
    | error e0 =>
      rw [h0] at hhead
      simp [Except.isOk, Except.toBool] at hhead
    | ok loc =>
      exact ih _ fun p hp => hall p (List.mem_cons_of_mem _ hp)

theorem parseLocalitiesLines_error (ls : List (Nat × List Char)) :
    ∀ acc e, parseLocalitiesLines ls acc = .error e →
      ∃ pre p post, ls = pre ++ p :: post ∧
        (∀ q ∈ pre, (parseLocalityLine q.2 q.1).isOk) ∧
        parseLocalityLine p.2 p.1 = .error e := by
  induction ls with
  | nil =>
    intro acc e h
    simp [parseLocalitiesLines] at h
  | cons q rest ih =>
    intro acc e h
    obtain ⟨n, line⟩ := q
    rw [parseLocalitiesLines] at h
    cases h0 : parseLocalityLine line n with
    | error e0 =>
      rw [h0] at h
      cases h
      exact ⟨[], (n, line), rest, by simp, by simp, h0⟩
    | ok loc =>
      rw [h0] at h
      obtain ⟨pre, p, post, hsplit, hok, herr⟩ := ih _ e h
      refine ⟨(n, line) :: pre, p, post, by simp [hsplit], ?_, herr⟩
      intro q hq
      rcases List.mem_cons.mp hq with rfl | hq'
      · simp [h0, Except.isOk, Except.toBool]
      · exact hok q hq'

theorem parseLocalitiesLines_first_error (pre : List (Nat × List Char)) :
    ∀ (acc : List (Nat × Locality)) (p : Nat × List Char)
      (post : List (Nat × List Char)) (e : ParseError),
      (∀ q ∈ pre, (parseLocalityLine q.2 q.1).isOk) →
      parseLocalityLine p.2 p.1 = .error e →
      parseLocalitiesLines (pre ++ p :: post) acc = .error e := by
  induction pre with
  | nil =>
    intro acc p post e _ herr
    obtain ⟨n, line⟩ := p
    have herr' : parseLocalityLine line n = .error e := herr
    show parseLocalitiesLines ((n, line) :: post) acc = .error e
    rw [parseLocalitiesLines, herr']
  | cons q pre ih =>
    intro acc p post e hok herr
    obtain ⟨n, line⟩ := q
    have hq := hok (n, line) (List.mem_cons_self _ _)
    show parseLocalitiesLines ((n, line) :: (pre ++ p :: post)) acc =
      .error e
    rw [parseLocalitiesLines]
    cases h0 : parseLocalityLine line n with
    | error e0 =>
      rw [h0] at hq
      simp [Except.isOk, Except.toBool] at hq
    | ok loc =>
      exact ih _ p post e (fun r hr => hok r (List.mem_cons_of_mem _ hr))
        herr

theorem exists_first_failing_line (ls : List (Nat × List Char)) :
    (∃ p ∈ ls, ¬ (parseLocalityLine p.2 p.1).isOk) →
    ∃ pre p post, ls = pre ++ p :: post ∧
      (∀ q ∈ pre, (parseLocalityLine q.2 q.1).isOk) ∧
      ¬ (parseLocalityLine p.2 p.1).isOk := by
  induction ls with
  | nil =>
    intro h
    simp at h
  | cons q rest ih =>
    intro h
    by_cases hq : (parseLocalityLine q.2 q.1).isOk
    · have h' : ∃ p ∈ rest, ¬ (parseLocalityLine p.2 p.1).isOk := by
        obtain ⟨p, hp, hpf⟩ := h
        rcases List.mem_cons.mp hp with rfl | hp'
        · exact absurd hq hpf
        · exact ⟨p, hp', hpf⟩
      obtain ⟨pre, p, post, hsplit, hok, hf⟩ := ih h'
      refine ⟨q :: pre, p, post, by rw [hsplit, List.cons_append], ?_, hf⟩
      intro r hr
      rcases List.mem_cons.mp hr with rfl | hr'
      · exact hq
      · exact hok r hr'
    · exact ⟨[], q, rest, by simp, by simp, hq⟩

end Edne

namespace Edne

/-- C9: the single-byte decoder is total and is the identity
embedding — for every byte sequence it succeeds, the produced string
has exactly one code point per input byte, and the i-th code point
equals the i-th byte's value. -/
theorem decoder_total_identity (bytes : List (Fin 256)) :
    ∃ s : List Char, decodeIso88591 bytes = .ok s ∧
      s.length = bytes.length ∧
      ∀ i : Nat, (s.get? i).map Char.toNat = (bytes.get? i).map Fin.val := by
  refine ⟨bytes.map (fun b => Char.ofNat b.val), by rfl, by simp, ?_⟩
  intro i
  rw [List.get?_map]
  cases hb : bytes.get? i with
  | none => simp
  | some b => simp [charOfNat_toNat b.isLt]

/-- C7: for each of the six identifier types, construction from an
unsigned integer fails exactly when the value is zero; construction
from text trims, fails with the invalid-format error when the trimmed
text does not parse as an unsigned decimal integer, and otherwise
applies the zero check; the text "0" fails with the zero-value error
for every identifier kind. -/
theorem identifier_construction (v : Nat) (_hv : v < 2 ^ 32)
    (s : List Char) :
    (v = 0 → idTryFrom v = .error .zero) ∧
    (v ≠ 0 → idTryFrom v = .ok v) ∧
    (parseU32 (rustTrim s) = none →
      idFromStr s = .error (.invalidFormat s)) ∧
    (∀ w, parseU32 (rustTrim s) = some w → idFromStr s = idTryFrom w) ∧
    localityIdFromStr ['0'] = .error .zero ∧
    neighborhoodIdFromStr ['0'] = .error .zero ∧
    addressIdFromStr ['0'] = .error .zero ∧
    bigUserIdFromStr ['0'] = .error .zero ∧
    operationalUnitIdFromStr ['0'] = .error .zero ∧
    cpcIdFromStr ['0'] = .error .zero := by
  refine ⟨fun h => by simp [idTryFrom, h], fun h => by simp [idTryFrom, h],
    fun h => by simp [idFromStr, h], fun w h => by simp [idFromStr, h],
    by decide, by decide, by decide, by decide, by decide, by decide⟩

/-- C7 witness: the theorem applied at value 5 and text "0". -/
theorem identifier_construction_witness :
    idTryFrom 5 = .ok 5 ∧ localityIdFromStr ['0'] = .error .zero := by
  have h := identifier_construction 5 (by decide) ['0']
  exact ⟨h.2.1 (by decide), h.2.2.2.2.1⟩

/-- C6 (amended): state-code parsing is case-insensitive and fails
with three distinct errors — empty after trimming, trimmed UTF-8 byte
length different from two (carrying that byte length), and
unrecognized two-byte content (the source checks `str::len`, a byte
count, not the character count). -/
theorem uf_parsing_errors (s : List Char) :
    (rustTrim s = [] → ufFromStr s = .error .empty) ∧
    (rustTrim s ≠ [] → utf8Len (rustTrim s) ≠ 2 →
      ufFromStr s = .error (.wrongLength (utf8Len (rustTrim s)))) ∧
    (utf8Len (rustTrim s) = 2 → ufCode (upperAscii (rustTrim s)) = none →
      ufFromStr s = .error (.invalidCode (rustTrim s))) ∧
    ufFromStr "sp".toList = .ok .SP ∧
    ufFromStr "Sp".toList = .ok .SP ∧
    ufFromStr "SP".toList = .ok .SP := by
  refine ⟨?_, ?_, ?_, by decide, by decide, by decide⟩
  · intro h
    unfold ufFromStr
    rw [if_pos (by simp [h])]
  · intro h1 h2
    unfold ufFromStr
    rw [if_neg (by simpa using h1), if_pos h2]
  · intro h1 h2
    have hne : rustTrim s ≠ [] := by
      intro h0
      rw [h0] at h1
      simp [utf8Len] at h1
    unfold ufFromStr
    rw [if_neg (by simpa using hne), if_neg (by simp [h1]), h2]

/-- C6 witness: the theorem applied at whitespace, a three-letter
code, and an unknown two-letter code. -/
theorem uf_parsing_errors_witness :
    ufFromStr "  ".toList = .error .empty ∧
    ufFromStr "ABC".toList = .error (.wrongLength 3) ∧
    ufFromStr "ZZ".toList = .error (.invalidCode "ZZ".toList) := by
  refine ⟨(uf_parsing_errors "  ".toList).1 (by decide), ?_, ?_⟩
  · have h := (uf_parsing_errors "ABC".toList).2.1 (by decide) (by decide)
    exact h.trans (by decide)
  · have h := (uf_parsing_errors "ZZ".toList).2.2.1 (by decide) (by decide)
    exact h.trans (by decide)

/-- C6 counterexample: for the one-character input "é" the trimmed
character count is 1, yet parsing yields the invalid-code error, not
the wrong-length error carrying 1 that the claim predicts. -/
theorem uf_wrong_length_counterexample :
    rustTrim ['é'] = ['é'] ∧ (rustTrim ['é']).length = 1 ∧
    ufFromStr ['é'] ≠ .error (.wrongLength 1) ∧
    ufFromStr ['é'] = .error (.invalidCode ['é']) := by
  refine ⟨by decide, by decide, by decide, by decide⟩

end Edne

namespace Edne

/-- C4: for every address processed in the streets stage, the display
address text is the street-type label, a space, and the name exactly
when the street-type-usage flag is present and affirmative, and the
name alone otherwise. -/
theorem street_display_text (b : CepLookupBuilder) (a : Address)
    (ha : a ∈ mapValues b.addresses) :
    addressEntry b a ∈ addressEntries b ∧
    (a.streetTypeIndicator = some .yes →
      (addressEntry b a).address = a.streetType ++ " " ++ a.name) ∧
    (a.streetTypeIndicator ≠ some .yes →
      (addressEntry b a).address = a.name) :=
  ⟨List.mem_map_of_mem _ ha,
    fun h => by simp [addressEntry, h],
    fun h => by simp [addressEntry, h]⟩

/-- Sample records exercising the builder claims. -/
def sampleLocality : Locality :=
  { id := 1, uf := .AC, name := "Rio Branco", cep := some "69900000",
    situation := .notCoded, localityType := .municipality,
    subordinateTo := none, abbreviatedName := none, ibgeCode := none }

/-- Sample operational unit sharing the sample locality's postal code. -/
def sampleOpUnit : OperationalUnit :=
  { id := 7, uf := .AC, localityId := 1, neighborhoodId := 2,
    streetId := none, name := "AGF Centro",
    address := "Avenida Getulio Vargas 300", cep := "69900000",
    postBoxIndicator := .yes, abbreviatedName := none }

/-- Sample address whose owning locality identifier is unresolved. -/
def sampleAddress : Address :=
  { id := 3, uf := .AC, localityId := 99, neighborhoodIdStart := 88,
    neighborhoodIdEnd := none, name := "Nelson Mesquita",
    complement := none, cep := "69918093", streetType := "Rua",
    streetTypeIndicator := some .yes, abbreviatedName := none }

/-- Sample builder state holding the three records above. -/
def sampleBuilder : CepLookupBuilder :=
  { localities := [(1, sampleLocality)], neighborhoods := [],
    addresses := [(3, sampleAddress)], bigUsers := [],
    operationalUnits := [(7, sampleOpUnit)], cpcs := [] }

/-- C4 witness: the theorem applied to the sample address with
street-type "Rua", name "Nelson Mesquita" and an affirmative flag. -/
theorem street_display_text_witness :
    (addressEntry sampleBuilder sampleAddress).address =
      "Rua Nelson Mesquita" := by
  have h :=
    (street_display_text sampleBuilder sampleAddress (by decide)).2.1
      (by decide)
  exact h.trans (by decide)

/-- C3: an address whose owning-locality identifier is unresolved
still yields a stage-2 entry keyed by its postal code with an empty
locality name (and no neighborhood name when that identifier is also
unresolved), and the built lookup still has an entry under that key. -/
theorem missing_foreign_key_tolerated (b : CepLookupBuilder) (a : Address)
    (ha : a ∈ mapValues b.addresses)
    (hloc : aGet a.localityId b.localities = none) :
    ((b.build).lookup a.cep).isSome ∧
    (addressEntry b a).cep = a.cep ∧
    (addressEntry b a).locality = "" ∧
    (aGet a.neighborhoodIdStart b.neighborhoods = none →
      (addressEntry b a).neighborhood = none) := by
  refine ⟨?_, rfl, by simp [addressEntry, hloc],
    fun h => by simp [addressEntry, h]⟩
  have hmem : addressEntry b a ∈ addressEntries b :=
    List.mem_map_of_mem _ ha
  have h1 : (lastWith a.cep (addressEntries b)).isSome :=
    lastWith_isSome ⟨addressEntry b a, hmem, rfl⟩
  have e : (b.build).ceps =
      insertAll (insertAll (insertAll (insertAll
        (insertAll [] (localityEntries b)) (addressEntries b))
        (bigUserEntries b)) (opUnitEntries b)) (cpcEntries b) := rfl
  rw [CepLookup.lookup, CepLookup.get, e]
  simp [cepGet_insertAll, or_isSome, h1]

/-- C3 witness: the theorem applied to the sample address, whose
owning locality 99 is absent from the sample builder. -/
theorem missing_foreign_key_tolerated_witness :
    ((sampleBuilder.build).lookup "69918093").isSome ∧
    (addressEntry sampleBuilder sampleAddress).locality = "" := by
  have h := missing_foreign_key_tolerated sampleBuilder sampleAddress
    (by decide) (by decide)
  exact ⟨h.1, h.2.2.1⟩

/-- C1: the five merge stages run in their fixed order and later
insertions overwrite earlier entries with the same postal code — when
a locality and an operational unit share a postal code and no CPC
carries it, the built lookup's entry is the operational unit's, with
the operational-unit tag and the unit's address text. -/
theorem merge_stage_precedence (b : CepLookupBuilder) (c : String)
    (_hloc : ∃ l ∈ mapValues b.localities, l.cep = some c)
    (hop : ∃ u ∈ mapValues b.operationalUnits, u.cep = c)
    (hcpc : ∀ p ∈ mapValues b.cpcs, p.cep ≠ c) :
    ∃ u ∈ mapValues b.operationalUnits, u.cep = c ∧
      (b.build).lookup c = some (opUnitEntry b u) ∧
      (opUnitEntry b u).type = .operationalUnit ∧
      (opUnitEntry b u).address = u.address := by
  have hcpcNone : lastWith c (cpcEntries b) = none := by
    apply lastWith_eq_none
    intro i hi
    obtain ⟨p, hp, rfl⟩ := List.mem_map.mp hi
    exact hcpc p hp
  have hopSome : (lastWith c (opUnitEntries b)).isSome := by
    obtain ⟨u, hu, huc⟩ := hop
    exact lastWith_isSome ⟨opUnitEntry b u, List.mem_map_of_mem _ hu, huc⟩
  obtain ⟨j, hj⟩ := Option.isSome_iff_exists.mp hopSome
  obtain ⟨hjmem, hjcep⟩ := lastWith_mem hj
  obtain ⟨u, hu, rfl⟩ := List.mem_map.mp hjmem
  refine ⟨u, hu, hjcep, ?_, rfl, rfl⟩
  have e : (b.build).ceps =
      insertAll (insertAll (insertAll (insertAll
        (insertAll [] (localityEntries b)) (addressEntries b))
        (bigUserEntries b)) (opUnitEntries b)) (cpcEntries b) := rfl
  rw [CepLookup.lookup, CepLookup.get, e, cepGet_insertAll, hcpcNone,
    cepGet_insertAll, hj]
  simp [Option.or]

/-- C1 witness: the sample builder, whose locality and operational
unit share postal code "69900000" and which has no CPCs. -/
theorem merge_stage_precedence_witness :
    ∃ u ∈ mapValues sampleBuilder.operationalUnits, u.cep = "69900000" ∧
      (sampleBuilder.build).lookup "69900000" =
        some (opUnitEntry sampleBuilder u) ∧
      (opUnitEntry sampleBuilder u).type = .operationalUnit ∧
      (opUnitEntry sampleBuilder u).address = u.address := by
  refine merge_stage_precedence sampleBuilder "69900000"
    ⟨sampleLocality, by decide, by decide⟩
    ⟨sampleOpUnit, by decide, by decide⟩ ?_
  intro p hp
  simp [sampleBuilder, mapValues] at hp

end Edne

namespace Edne

/-- C5: for every enumerated line, the arity check fails exactly when
the split does not yield the expected field count, with an error
carrying the expected count, the observed count and the line's 1-based
number in the original input; for the locality kind the fixed count is
9, and matching counts never raise a field-count error. -/
theorem field_count_contract (content : List Char) (expectedCount : Nat) :
    ∀ p ∈ parserLines content,
      (parseLineChecked p.2 expectedCount p.1 =
        if (parseLine p.2).length = expectedCount then .ok (parseLine p.2)
        else
          .error (.fieldCount expectedCount (parseLine p.2).length p.1)) ∧
      1 ≤ p.1 ∧ (rustLines content).get? (p.1 - 1) = some p.2 ∧
      ((parseLine p.2).length ≠ localityFieldCount →
        parseLocalityLine p.2 p.1 =
          .error
            (.fieldCount localityFieldCount (parseLine p.2).length p.1)) ∧
      ((parseLine p.2).length = localityFieldCount →
        ∀ e g m, parseLocalityLine p.2 p.1 ≠ .error (.fieldCount e g m)) := by
  intro p hp
  obtain ⟨j, hj1, hj2⟩ := enumNonBlank_mem hp
  refine ⟨?_, by omega, ?_, ?_, ?_⟩
  · by_cases h : (parseLine p.2).length = expectedCount
    · rw [if_pos h]
      simp [parseLineChecked, h]
    · rw [if_neg h]
      simp [parseLineChecked, h]
  · have hj : p.1 - 1 = j := by omega
    rw [hj]
    exact hj2
  · intro h
    have hc : parseLineChecked p.2 localityFieldCount p.1 =
        .error (.fieldCount localityFieldCount (parseLine p.2).length p.1) := by
      simp [parseLineChecked, h]
    unfold parseLocalityLine
    rw [hc]
  · intro h e g m
    have hc : parseLineChecked p.2 localityFieldCount p.1 =
        .ok (parseLine p.2) := by
      simp [parseLineChecked, h]
    unfold parseLocalityLine
    rw [hc]
    exact parseLocalityFields_ne_fieldCount _ _ e g m

/-- C5 witness: the theorem applied to a two-line input whose first
line has two fields. -/
theorem field_count_contract_witness :
    parseLineChecked "a@b".toList 9 1 = .error (.fieldCount 9 2 1) ∧
    (rustLines "a@b\nc@d".toList).get? 0 = some "a@b".toList := by
  have h := field_count_contract "a@b\nc@d".toList 9
    (1, "a@b".toList) (by decide)
  refine ⟨h.1.trans (by decide), ?_⟩
  have h2 := h.2.2.1
  exact h2

/-- C8: parsing a localities source is fail-fast and atomic — when
some enumerated line fails to parse, the parse entry point returns an
error and no collection, and the error is exactly the first failing
line's own error; when every enumerated line parses, a collection is
returned; conversely, any returned error is the first failing line's. -/
theorem parse_fail_fast (content : List Char) :
    ((∀ p ∈ parserLines content, (parseLocalityLine p.2 p.1).isOk) →
      (localitiesFromUtf8 content).isOk) ∧
    ((∃ p ∈ parserLines content, ¬ (parseLocalityLine p.2 p.1).isOk) →
      ∃ e, localitiesFromUtf8 content = .error e) ∧
    (∀ pre p post e, parserLines content = pre ++ p :: post →
      (∀ q ∈ pre, (parseLocalityLine q.2 q.1).isOk) →
      parseLocalityLine p.2 p.1 = .error e →
      localitiesFromUtf8 content = .error e) ∧
    (∀ e, localitiesFromUtf8 content = .error e →
      ∃ pre p post, parserLines content = pre ++ p :: post ∧
        (∀ q ∈ pre, (parseLocalityLine q.2 q.1).isOk) ∧
        parseLocalityLine p.2 p.1 = .error e) := by
  refine ⟨fun hall => parseLocalitiesLines_ok _ _ hall, ?_, ?_,
    fun e h => parseLocalitiesLines_error _ _ e h⟩
  · intro h
    obtain ⟨pre, p, post, hsplit, hok, hf⟩ :=
      exists_first_failing_line _ h
    obtain ⟨e, he⟩ : ∃ e, parseLocalityLine p.2 p.1 = .error e := by
      cases h0 : parseLocalityLine p.2 p.1 with
      | error e0 => exact ⟨e0, rfl⟩
      | ok loc =>
        rw [h0] at hf
        simp [Except.isOk, Except.toBool] at hf
    refine ⟨e, ?_⟩
    show parseLocalitiesLines (parserLines content) [] = .error e
    rw [hsplit]
    exact parseLocalitiesLines_first_error pre [] p post e hok he
  · intro pre p post e hsplit hok herr
    show parseLocalitiesLines (parserLines content) [] = .error e
    rw [hsplit]
    exact parseLocalitiesLines_first_error pre [] p post e hok herr

/-- C8 witness: a well-formed one-line source parses; appending a
malformed second line makes the parse return exactly that line's
field-count error instead of any collection. -/
theorem parse_fail_fast_witness :
    (localitiesFromUtf8
      "16@AC@Rio Branco@@1@M@@Rio Branco@1200401".toList).isOk ∧
    localitiesFromUtf8
      "16@AC@Rio Branco@@1@M@@Rio Branco@1200401\nbad".toList =
        .error (.fieldCount 9 1 2) := by
  constructor
  · exact (parse_fail_fast _).1 (by decide)
  · exact (parse_fail_fast _).2.2.1
      [(1, "16@AC@Rio Branco@@1@M@@Rio Branco@1200401".toList)]
      (2, "bad".toList) [] _ (by decide) (by decide) (by decide)

/-- Sample unified-lookup entry. -/
def sampleInfo : CepInfo :=
  { cep := "69900000", uf := .AC, locality := "Rio Branco",
    neighborhood := none, address := "", complement := none,
    type := .uncodedLocality }

/-- C10: in any lookup reachable by insert calls — the built lookup in
particular — `lookup` and `get` return nothing or an entry whose own
postal code equals the queried key, and `len` counts the distinct
postal codes inserted. -/
theorem lookup_key_value_invariant :
    (∀ (infos : List CepInfo) (c : String),
      (∀ i, (CepLookup.mk (insertAll [] infos)).lookup c = some i →
        i.cep = c) ∧
      (∀ i, (CepLookup.mk (insertAll [] infos)).get c = some i →
        i.cep = c) ∧
      (CepLookup.mk (insertAll [] infos)).len =
        ((infos.map CepInfo.cep).toFinset).card) ∧
    (∀ b : CepLookupBuilder,
      b.build = CepLookup.mk (insertAll []
        (localityEntries b ++ addressEntries b ++ bigUserEntries b ++
          opUnitEntries b ++ cpcEntries b))) := by
  constructor
  · intro infos c
    have hfacts := insertAll_key_facts infos [] (by simp [keyList])
    have hcons : entriesConsistent (insertAll [] infos) :=
      hfacts.2.2 entriesConsistent_nil
    refine ⟨fun i h => cepGet_consistent hcons h,
      fun i h => cepGet_consistent hcons h, ?_⟩
    show (insertAll [] infos).length = _
    rw [length_eq_card_keyFinset hfacts.1, hfacts.2.1]
    simp [keyFinset, keyList]
  · intro b
    have h : insertAll [] (localityEntries b ++ addressEntries b ++
        bigUserEntries b ++ opUnitEntries b ++ cpcEntries b) =
        insertAll (insertAll (insertAll (insertAll (insertAll []
          (localityEntries b)) (addressEntries b)) (bigUserEntries b))
          (opUnitEntries b)) (cpcEntries b) := by
      rw [insertAll_append, insertAll_append, insertAll_append,
        insertAll_append]
    exact congrArg CepLookup.mk h.symm

/-- C10 witness: the theorem applied to the one-entry insert list
holding the sample entry. -/
theorem lookup_key_value_invariant_witness :
    sampleInfo.cep = "69900000" ∧
    (CepLookup.mk (insertAll [] [sampleInfo])).len = 1 := by
  refine ⟨(lookup_key_value_invariant.1 [sampleInfo] "69900000").2.1
    sampleInfo (by decide), ?_⟩
  exact (lookup_key_value_invariant.1 [sampleInfo] "69900000").2.2.trans
    (by decide)

/-- C2 (amended): accumulation order is irrelevant provided that any
two added collections of the same kind agree on the records of shared
identifiers — for every permutation of such a sequence of add calls,
the subsequent build produces the same unified lookup.  (Unrestricted
commutativity fails; see the counterexample.) -/
theorem accumulation_order_irrelevant (ops1 ops2 : List AddOp)
    (hperm : ops1.Perm ops2)
    (hcons : List.Pairwise opsConsistent ops1) :
    (applyOps CepLookupBuilder.new ops1).build =
      (applyOps CepLookupBuilder.new ops2).build :=
  congrArg CepLookupBuilder.build
    (applyOps_perm hperm CepLookupBuilder.new builderSorted_new hcons)

/-- Sample community postal box. -/
def sampleCpc : Cpc :=
  { id := 4, uf := .AC, localityId := 1, name := "CPC Vila",
    address := "Ramal do Km 10", cep := "69919899" }

/-- C2 witness: adding a locality collection and a CPC collection in
either order builds the same lookup. -/
theorem accumulation_order_irrelevant_witness :
    (applyOps CepLookupBuilder.new
      [.localities [(1, sampleLocality)], .cpcs [(4, sampleCpc)]]).build =
    (applyOps CepLookupBuilder.new
      [.cpcs [(4, sampleCpc)], .localities [(1, sampleLocality)]]).build := by
  apply accumulation_order_irrelevant
  · exact List.Perm.swap _ _ _
  · refine List.Pairwise.cons ?_ (List.pairwise_singleton _ _)
    intro o ho
    rcases List.mem_cons.mp ho with rfl | ho'
    · trivial
    · exact absurd ho' (List.not_mem_nil o)

/-- The sample locality with a different display name, sharing
identifier 1. -/
def sampleLocalityB : Locality :=
  { sampleLocality with name := "Rio Branco B" }

/-- C2 counterexample: the same multiset of collections added in two
orders — two locality collections sharing identifier 1 with different
records — builds two different unified lookups, so unrestricted
commutativity of accumulation fails. -/
theorem accumulation_not_commutative :
    ([AddOp.localities [(1, sampleLocality)],
      AddOp.localities [(1, sampleLocalityB)]].Perm
      [AddOp.localities [(1, sampleLocalityB)],
        AddOp.localities [(1, sampleLocality)]]) ∧
    (applyOps CepLookupBuilder.new
      [.localities [(1, sampleLocality)],
        .localities [(1, sampleLocalityB)]]).build ≠
      (applyOps CepLookupBuilder.new
        [.localities [(1, sampleLocalityB)],
          .localities [(1, sampleLocality)]]).build :=
  ⟨List.Perm.swap _ _ _, by decide⟩

end Edne
